import Mathlib

/-!
Verification of the import-orchestration core of
`packages/dila2sql/dila2sql/importer/process_archive.py`.

The Python module is shallowly embedded below: every function of the module
(`process_archive`, `iterate_archive_chunk_entries`,
`get_process_xml_job_args_for_entry`, `merge_counts`,
`process_xml_jobs_batch`, `process_xml_jobs_in_parallel`,
`process_xml_jobs_sync`) becomes a Lean function.  External collaborators
(`get_table`, `get_dossier`, `process_xml`, the libarchive reader, the store
connection) are taken as parameters or modelled by events, exactly as the
module treats them.  Python exceptions (IndexError) appear as `Option`
results: `none` means the Python code raises.
-/

/-- Splits a character list at every occurrence of `sep`, keeping empty
pieces, mirroring Python `str.split(sep)` for a one-character separator. -/
def splitCharAux (sep : Char) : List Char → List (List Char)
  | [] => [[]]
  | c :: rest =>
    let r := splitCharAux sep rest
    if c = sep then [] :: r
    else (c :: r.headD []) :: r.tail

/-- Python `path.split('/')`: split on every slash, keeping empty pieces. -/
def pySplitSlash (s : String) : List String :=
  (splitCharAux '/' s.toList).map (fun l => String.mk l)

/-- Python `str.lower()` (ASCII case folding, which is all the module uses). -/
def pyLower (s : String) : String :=
  String.mk (s.toList.map Char.toLower)

/-- Python `s.startswith(pre)`. -/
def pyStartsWith (s pre : String) : Bool :=
  pre.toList.isPrefixOf s.toList

/-- Python `path[-1] == '/'` for a nonempty `path` (the caller guards the
empty case separately, because `''[-1]` raises IndexError). -/
def pyEndsWithSlash (s : String) : Bool :=
  s.toList.getLastD ' ' = '/'

/-- Python `s[:-4]`: drop the last four characters, empty when `len(s) <= 4`. -/
def pyStripLast4 (s : String) : String :=
  String.mk (s.toList.take (s.toList.length - 4))

/-- Python `s.split()` with no argument: split on whitespace runs and drop
empty pieces. -/
def pySplitWs (s : String) : List String :=
  ((s.toList.splitOnP Char.isWhitespace).filter (fun l => l ≠ [])).map
    (fun l => String.mk l)

/-- One record of the archive stream: its slash-delimited path, its decoded
payload (`b''.join(entry.get_blocks())`), and its modification time. -/
structure Entry where
  pathname : String
  payload : String
  mtime : Int
deriving DecidableEq, Repr

/-- The argument tuple returned by `get_process_xml_job_args_for_entry` and
consumed by `process_xml`:
`(xml_blob, mtime, base, table, dossier, text_cid, text_id, process_links)`. -/
structure JobArgs where
  xml_blob : String
  mtime : Int
  base : String
  table : String
  dossier : String
  text_cid : Option String
  text_id : String
  process_links : Bool
deriving DecidableEq, Repr

/-- Python `defaultdict(int)`-style increment `m[key] += c`: add to the entry
if the key is present, otherwise insert it with the default value `0 + c`.
Insertion order is preserved, as for a Python dict. -/
def incKey (m : List (String × Nat)) (key : String) (c : Nat) : List (String × Nat) :=
  match m with
  | [] => [(key, c)]
  | (k, v) :: rest => if k = key then (k, v + c) :: rest else (k, v) :: incKey rest key c

/-- Embeds `merge_counts(sub_counts, sub_skipped, counts, skipped)`.  The
result is the caller-visible state of the two accumulators after the call:
the dict `counts` is mutated in place (`counts[key] += count`), so the
per-key sums are visible to the caller; the int `skipped` is passed by value
and `skipped += sub_skipped` only rebinds the callee's local, so the
caller-visible `skipped` is returned unchanged. -/
def merge_counts (sub_counts : List (String × Nat)) (sub_skipped : Nat)
    (counts : List (String × Nat)) (skipped : Nat) : List (String × Nat) × Nat :=
  (sub_counts.foldl (fun acc kc => incKey acc kc.1 kc.2) counts, skipped)

/-- The module constant `PROCESS_XML_JOBS_BATCH_SIZE = 1000`. -/
def PROCESS_XML_JOBS_BATCH_SIZE : Nat := 1000

/-- The module constant `CHUNK_SIZE = 500_000`. -/
def CHUNK_SIZE : Nat := 500000

/-- The dispatch condition of `process_archive` line 49:
`MAX_PROCESSES != 1 and len(process_xml_jobs_args) > 10 * PROCESS_XML_JOBS_BATCH_SIZE`.
`MAX_PROCESSES` is `None` when the environment variable is unset, hence the
`Option Int`. -/
def shouldRunInParallel (maxProcesses : Option Int) (jobsCount : Nat) : Bool :=
  decide (maxProcesses ≠ some 1) && decide (10 * PROCESS_XML_JOBS_BATCH_SIZE < jobsCount)

/-- The loop body of `iterate_archive_chunk_entries`: `idx` starts at the
chunk's start index, each pulled entry is dropped when `idx > chunk_end_idx`
(the `break`), otherwise `idx` is incremented and the entry yielded. -/
def chunkLoop {α : Type} : List α → Nat → Nat → List α
  | [], _, _ => []
  | e :: rest, idx, endIdx =>
    if endIdx < idx then []
    else e :: chunkLoop rest (idx + 1) endIdx

/-- Embeds `iterate_archive_chunk_entries(archive_path, chunk_start_idx,
chunk_end_idx)`: a fresh stream over the archive (here the entry list),
`consume(archive, chunk_start_idx)` discarding the first `chunk_start_idx`
entries without reading them, then the yield loop. -/
def iterate_archive_chunk_entries {α : Type} (entries : List α)
    (chunk_start_idx chunk_end_idx : Nat) : List α :=
  chunkLoop (entries.drop chunk_start_idx) chunk_start_idx chunk_end_idx

/-- Embeds the chunk-list construction of `process_archive` lines 29-32:
`divmod(total, CHUNK_SIZE)`, the full chunks, then `last_idx =
chunks[-1][-1]` — which raises IndexError (`none`) when the list of full
chunks is empty — and the conditional final partial chunk. -/
def build_chunks (total chunkSize : Nat) : Option (List (Nat × Nat)) :=
  let chunks_count := total / chunkSize
  let last_chunk_size := total % chunkSize
  let chunks := (List.range chunks_count).map (fun i => (i * chunkSize, (i + 1) * chunkSize))
  match chunks.getLast? with
  | none => none
  | some last =>
    let last_idx := last.2
    some (chunks ++ if 0 < last_chunk_size then [(last_idx, last_idx + last_chunk_size)] else [])

/-- The parenthesised folder condition of
`get_process_xml_job_args_for_entry` lines 101-106, evaluated on the
(possibly base-stripped) `parts`; only called when `parts` has at least
three segments, so the `getD` defaults are never taken. -/
def familyBad (ps : List String) : Bool :=
  let p0 := ps.getD 0 ""
  let p2 := ps.getD 2 ""
  !(["legi", "jorf", "kali"].contains p0)
  || (p0 == "legi" && !(pyStartsWith p2 "code_et_TNC_"))
  || (p0 == "jorf" && !(["article", "section_ta", "texte"].contains p2))
  || (p0 == "kali" && !(["article", "section_ta", "texte", "conteneur"].contains p2))

/-- Embeds `get_process_xml_job_args_for_entry` from line 101 on, after the
directory, suppression-file and base-prefix-strip steps, on the final
segment list `ps`.  The leading length guard models the IndexError raised by
`parts[2]` — read both by the folder condition (when `parts[0]` is a
recognised family) and by the unknown-folder tally line — whenever `parts`
has fewer than three segments; `parts[11]` likewise raises when `base ==
'LEGI'` and `parts` has fewer than twelve segments, and this happens before
the `table is None` test.  `tof` and `dof` are the external collaborators
`get_table` and `get_dossier`. -/
def classifyTail (tof : List String → Option String) (dof : List String → String → String)
    (ps : List String) (payload : String) (mtime : Int) (base : String)
    (liste_suppression : List String) (unknown_folders : List (String × Nat))
    (process_links : Bool) :
    Option (Option JobArgs × List String × List (String × Nat)) :=
  if ps.length < 3 then none
  else if familyBad ps then
    some (none, liste_suppression, incKey unknown_folders (ps.getD 2 "") 1)
  else
    let table := tof ps
    let dossier := dof ps base
    if base = "LEGI" && decide (ps.length < 12) then none
    else
      let text_cid : Option String := if base = "LEGI" then some (ps.getD 11 "") else none
      let text_id := pyStripLast4 (ps.getLastD "")
      match table with
      | none => some (none, liste_suppression, incKey unknown_folders text_id 1)
      | some t =>
        some (some ⟨payload, mtime, base, t, dossier, text_cid, text_id, process_links⟩,
          liste_suppression, unknown_folders)

/-- The base-prefix strip of `get_process_xml_job_args_for_entry` lines
98-100: when the second path segment equals the lower-cased base, the first
segment is discarded.  Reached only once `parts.length >= 2` is known (the
`parts[1]` read raises IndexError otherwise, which the caller models). -/
def effParts (path : String) (base : String) : List String :=
  let parts := pySplitSlash path
  if parts.getD 1 "" = pyLower base then parts.drop 1 else parts

/-- Embeds `get_process_xml_job_args_for_entry(entry, base, counts, skipped,
liste_suppression, unknown_folders, db, db_url, process_links)`.  `counts`,
`skipped`, `db` and `db_url` are never used by the Python function and are
omitted.  The result is `none` when the Python code raises IndexError
(`path[-1]` on an empty path, `parts[1]` on a one-segment path, or the
`classifyTail` accesses); otherwise `some (job?, liste', unknown')` where
`job?` is the returned argument tuple (or `None`) and `liste'`, `unknown'`
are the caller-visible states of the two mutable accumulators after the
call. -/
def get_process_xml_job_args_for_entry (tof : List String → Option String)
    (dof : List String → String → String) (entry : Entry) (base : String)
    (liste_suppression : List String) (unknown_folders : List (String × Nat))
    (process_links : Bool) :
    Option (Option JobArgs × List String × List (String × Nat)) :=
  let path := entry.pathname
  let parts := pySplitSlash path
  if path = "" then none
  else if pyEndsWithSlash path then some (none, liste_suppression, unknown_folders)
  else if parts.getLastD "" = "liste_suppression_" ++ pyLower base ++ ".dat" then
    some (none, liste_suppression ++ pySplitWs entry.payload, unknown_folders)
  else if parts.length < 2 then none
  else
    classifyTail tof dof (effParts path base) entry.payload entry.mtime base liste_suppression
      unknown_folders process_links

/-- An observable action on the store connection, used to state the commit
discipline of the executors.  `J` is the job type. -/
inductive DBEvent (J : Type) where
  | connect
  | processJob (j : J)
  | commit
deriving DecidableEq, Repr

/-- Tests whether an event is a `commit`. -/
def DBEvent.isCommit {J : Type} : DBEvent J → Bool
  | .commit => true
  | _ => false

/-- The loop of `process_xml_jobs_sync`: for each job run `process_xml`
(the external collaborator `pxml`), fold the result into the local
accumulators with `merge_counts`, and `db.commit()` after the job when
`commit` is set.  Returns the final accumulators and the trace of store
events. -/
def syncLoop {J : Type} (pxml : J → List (String × Nat) × Nat) (commit : Bool) :
    List J → List (String × Nat) × Nat → (List (String × Nat) × Nat) × List (DBEvent J)
  | [], st => (st, [])
  | j :: rest, st =>
    let r := pxml j
    let st2 := merge_counts r.1 r.2 st.1 st.2
    let k := syncLoop pxml commit rest st2
    (k.1, DBEvent.processJob j :: (if commit then DBEvent.commit :: k.2 else k.2))

/-- Embeds `process_xml_jobs_sync(jobs_args, progress, db, commit)`: fresh
accumulators `(defaultdict(zero), 0)`, then the per-job loop.  The
`progress` flag only wraps the iterator in a progress bar and is omitted. -/
def process_xml_jobs_sync {J : Type} (pxml : J → List (String × Nat) × Nat)
    (jobs : List J) (commit : Bool) :
    (List (String × Nat) × Nat) × List (DBEvent J) :=
  syncLoop pxml commit jobs ([], 0)

/-- Embeds `process_xml_jobs_batch(jobs_args_batch, db_url)`: the worker
opens its own connection (`connect_db`), delegates to
`process_xml_jobs_sync` with `commit=False`, then performs the single
`db.commit()` for the whole batch. -/
def process_xml_jobs_batch {J : Type} (pxml : J → List (String × Nat) × Nat)
    (jobs : List J) : (List (String × Nat) × Nat) × List (DBEvent J) :=
  let r := process_xml_jobs_sync pxml jobs false
  (r.1, DBEvent.connect :: (r.2 ++ [DBEvent.commit]))

/-- Python batch slicing
`[args[i:i + B] for i in range(0, len(args), B)]` for a positive batch
size `n`. -/
def batchesOf {α : Type} (n : Nat) : List α → List (List α)
  | [] => []
  | x :: xs => (x :: xs.take (n - 1)) :: batchesOf n (xs.drop (n - 1))
termination_by l => l.length
decreasing_by simp [List.length_drop]; omega

/-- Embeds `process_xml_jobs_in_parallel(process_xml_jobs_args, db_url)`:
slice the jobs into batches of `PROCESS_XML_JOBS_BATCH_SIZE`, run each batch
through `process_xml_jobs_batch`, and fold the batch results into fresh
accumulators with `merge_counts`.  The source merges in `as_completed`
(completion) order, which is not deterministic; the model merges in
submission order. -/
def process_xml_jobs_in_parallel {J : Type} (pxml : J → List (String × Nat) × Nat)
    (jobs : List J) : List (String × Nat) × Nat :=
  let batches := batchesOf PROCESS_XML_JOBS_BATCH_SIZE jobs
  batches.foldl
    (fun acc batch =>
      let r := process_xml_jobs_batch pxml batch
      merge_counts r.1.1 r.1.2 acc.1 acc.2)
    ([], 0)

/-- The list comprehension of `process_archive` lines 40-46: classify every
entry of the chunk in order, threading the two mutable accumulators through
the calls; an IndexError in any call aborts the whole comprehension
(`none`). -/
def classifyEntries (tof : List String → Option String)
    (dof : List String → String → String) (base : String) (process_links : Bool) :
    List Entry → List String → List (String × Nat) →
    Option (List (Option JobArgs) × List String × List (String × Nat))
  | [], l, u => some ([], l, u)
  | e :: rest, l, u =>
    match get_process_xml_job_args_for_entry tof dof e base l u process_links with
    | none => none
    | some (j, l2, u2) =>
      match classifyEntries tof dof base process_links rest l2 u2 with
      | none => none
      | some (js, l3, u3) => some (j :: js, l3, u3)

/-- The run-wide accumulators owned by the coordinator of
`process_archive`. -/
structure RunState where
  counts : List (String × Nat)
  skipped : Nat
  liste_suppression : List String
  unknown_folders : List (String × Nat)
deriving DecidableEq, Repr

/-- One iteration of the chunk loop of `process_archive` lines 35-53: walk
the chunk's entries, build and filter the job argument list, dispatch it to
the parallel pool or the sequential executor according to
`shouldRunInParallel`, and merge the chunk's counters into the run-wide
accumulators with `merge_counts` (whose int argument the caller-visible
`skipped` is unchanged by). -/
def process_chunk (tof : List String → Option String)
    (dof : List String → String → String) (pxml : JobArgs → List (String × Nat) × Nat)
    (entries : List Entry) (base : String) (maxProcesses : Option Int)
    (process_links : Bool) (chunk : Nat × Nat) (st : RunState) : Option RunState :=
  let chunkEntries := iterate_archive_chunk_entries entries chunk.1 chunk.2
  match classifyEntries tof dof base process_links chunkEntries st.liste_suppression
      st.unknown_folders with
  | none => none
  | some (jobOpts, l2, u2) =>
    let jobs := jobOpts.filterMap id
    let chunkRes :=
      if shouldRunInParallel maxProcesses jobs.length then
        process_xml_jobs_in_parallel pxml jobs
      else
        (process_xml_jobs_sync pxml jobs true).1
    let merged := merge_counts chunkRes.1 chunkRes.2 st.counts st.skipped
    some ⟨merged.1, merged.2, l2, u2⟩

/-- An observable top-level action of a `process_archive` run: the
completion of the chunk `[startIdx, endIdx)` of the loop, or the single
invocation of the external collaborator `suppress(base, db, ids)`. -/
inductive RunEvent where
  | chunkDone (startIdx endIdx : Nat)
  | suppressCall (base : String) (ids : List String)
deriving DecidableEq, Repr

/-- Tests whether a run event is the `suppress` invocation. -/
def RunEvent.isSuppress : RunEvent → Bool
  | .suppressCall _ _ => true
  | _ => false

/-- The chunk loop of `process_archive`: chunks are processed strictly one
after another; an exception in a chunk aborts the loop.  Returns the final
run state (or `none` on an exception) and the trace of completed chunks. -/
def runChunks (tof : List String → Option String) (dof : List String → String → String)
    (pxml : JobArgs → List (String × Nat) × Nat) (entries : List Entry) (base : String)
    (maxProcesses : Option Int) (process_links : Bool) :
    List (Nat × Nat) → RunState → Option RunState × List RunEvent
  | [], st => (some st, [])
  | c :: cs, st =>
    match process_chunk tof dof pxml entries base maxProcesses process_links c st with
    | none => (none, [])
    | some st2 =>
      let r := runChunks tof dof pxml entries base maxProcesses process_links cs st2
      (r.1, RunEvent.chunkDone c.1 c.2 :: r.2)

/-- Embeds `process_archive(db, db_url, archive_path, process_links)`:
count the entries, build the chunk list (an IndexError there aborts the
run), run every chunk in order, and finally — only when the accumulated
`liste_suppression` is nonempty — invoke `suppress(base, db,
liste_suppression)` exactly once.  The source fixes the chunk size to the
module constant `CHUNK_SIZE`; it is a parameter here so the driver can also
be evaluated on small archives, and `CHUNK_SIZE` is the value the source
passes. -/
def process_archive (tof : List String → Option String)
    (dof : List String → String → String) (pxml : JobArgs → List (String × Nat) × Nat)
    (chunkSize : Nat) (entries : List Entry) (base : String)
    (maxProcesses : Option Int) (process_links : Bool) :
    Option RunState × List RunEvent :=
  match build_chunks entries.length chunkSize with
  | none => (none, [])
  | some chunks =>
    match runChunks tof dof pxml entries base maxProcesses process_links chunks
      ⟨[], 0, [], []⟩ with
    | (none, evs) => (none, evs)
    | (some st, evs) =>
      if st.liste_suppression = [] then (some st, evs)
      else (some st, evs ++ [RunEvent.suppressCall base st.liste_suppression])

/-- The per-job commit trace the specification describes for the sequential
path with per-job committing enabled: process the job, then commit, for
every job in order. -/
def perJobCommitTrace {J : Type} : List J → List (DBEvent J)
  | [] => []
  | j :: r => DBEvent.processJob j :: DBEvent.commit :: perJobCommitTrace r

/-- Claim C1 (code bug): the chunked walker is claimed to yield exactly the
entries with indices in `[start, end)` and never an entry with index `>=
end`; on an archive of four entries with `start = 0`, `end = 2` the loop
breaks only when `idx > chunk_end_idx`, so it yields the three entries at
indices 0, 1 and 2 — the entry at index `end` included — instead of the
claimed two. -/
theorem C1_walker_yields_end_index :
    iterate_archive_chunk_entries [10, 20, 30, 40] 0 2 = [10, 20, 30] ∧
    iterate_archive_chunk_entries [10, 20, 30, 40] 0 2 ≠ [10, 20] := by
  decide

/-- Claim C2 (code bug): the chunk-list construction reads `chunks[-1]` from
the list of full chunks, which is empty whenever `0 < total < CHUNK_SIZE`,
so it raises IndexError (`none`) on a 100-entry archive instead of
producing `[(0, 100)]`; for `total = 1,200,000` it does produce the three
claimed chunks. -/
theorem C2_chunks_crash_small_archive :
    build_chunks 100 CHUNK_SIZE = none ∧
    build_chunks 1200000 CHUNK_SIZE
      = some [(0, 500000), (500000, 1000000), (1000000, 1200000)] := by
  decide

/-- Claim C3 (code bug): merging two batch statistics each reporting
`{add: 3, update: 1}` with `skipped = 2` sums the per-key counts to
`{add: 6, update: 2}` as claimed, but the caller-visible skipped total stays
`0` instead of becoming `4`, because `skipped += sub_skipped` only rebinds
the callee's local int. -/
theorem C3_merge_loses_skipped :
    merge_counts [("add", 3), ("update", 1)] 2
      (merge_counts [("add", 3), ("update", 1)] 2 [] 0).1
      (merge_counts [("add", 3), ("update", 1)] 2 [] 0).2
      = ([("add", 6), ("update", 2)], 0) := by
  decide

/-- Claim C5: the dispatcher routes a chunk's job list to the sequential
executor exactly when the configured worker concurrency equals 1 or the job
count does not exceed ten times the batch size; with batch size 1000 and
concurrency different from 1, 10000 jobs run sequentially and 10001 jobs run
in parallel. -/
theorem C5_dispatch_boundary (maxProcesses : Option Int) (jobsCount : Nat) :
    (shouldRunInParallel maxProcesses jobsCount = false ↔
      maxProcesses = some 1 ∨ jobsCount ≤ 10 * PROCESS_XML_JOBS_BATCH_SIZE) ∧
    (maxProcesses ≠ some 1 →
      shouldRunInParallel maxProcesses (10 * PROCESS_XML_JOBS_BATCH_SIZE) = false ∧
      shouldRunInParallel maxProcesses (10 * PROCESS_XML_JOBS_BATCH_SIZE + 1) = true) := by
  constructor
  · simp only [shouldRunInParallel, Bool.and_eq_false_iff, decide_eq_false_iff_not, not_not,
      not_lt]
  · intro h
    simp [shouldRunInParallel, h]

/-- Witness for C5 at concrete inputs: with the worker-count override unset
(`None`, so concurrency is not 1), 10000 jobs run sequentially and 10001
jobs run in parallel. -/
theorem C5_dispatch_boundary_witness :
    shouldRunInParallel none (10 * PROCESS_XML_JOBS_BATCH_SIZE) = false ∧
    shouldRunInParallel none (10 * PROCESS_XML_JOBS_BATCH_SIZE + 1) = true :=
  (C5_dispatch_boundary none 0).2 (by decide)

/-- Counterexample to claim C6: for an entry under the unrecognized
top-level folder `foo`, the claim says the tally key is the top-level
segment `foo`; the code unconditionally tallies under the third path
segment, here `baz`. -/
theorem C6_counterexample_third_segment :
    get_process_xml_job_args_for_entry (fun _ => none) (fun _ _ => "")
      ⟨"foo/bar/baz/doc.xml", "", 0⟩ "LEGI" [] [] true
      = some (none, [], [("baz", 1)]) ∧ ("baz" : String) ≠ "foo" := by
  decide

/-- Counterexample to claim C7: with base `LEGI`, an entry whose path passes
the family and category checks but has fewer than twelve segments raises
IndexError at the `parts[11]` container-id read — which happens before the
`table is None` test — instead of tallying the text identifier. -/
theorem C7_counterexample_cid_index_error :
    get_process_xml_job_args_for_entry (fun _ => none) (fun _ _ => "")
      ⟨"legi/x/code_et_TNC_y/f.xml", "", 0⟩ "LEGI" [] [] true = none := by
  decide

/-- Counterexample to claim C10: for `x/legi/legi/a/b.xml` with base `LEGI`,
the second segment equals the lower-cased base, so the first segment is
discarded — but classifying the remainder path `legi/legi/a/b.xml` strips a
second time, so the two entries are routed differently (tally key `a`
versus `b.xml`). -/
theorem C10_counterexample_double_strip :
    get_process_xml_job_args_for_entry (fun _ => none) (fun _ _ => "")
      ⟨"x/legi/legi/a/b.xml", "", 0⟩ "LEGI" [] [] true
      = some (none, [], [("a", 1)]) ∧
    get_process_xml_job_args_for_entry (fun _ => none) (fun _ _ => "")
      ⟨"legi/legi/a/b.xml", "", 0⟩ "LEGI" [] [] true
      = some (none, [], [("b.xml", 1)]) ∧
    get_process_xml_job_args_for_entry (fun _ => none) (fun _ _ => "")
        ⟨"x/legi/legi/a/b.xml", "", 0⟩ "LEGI" [] [] true
      ≠ get_process_xml_job_args_for_entry (fun _ => none) (fun _ _ => "")
        ⟨"legi/legi/a/b.xml", "", 0⟩ "LEGI" [] [] true := by
  refine ⟨by decide, by decide, by decide⟩

/-- Claim C9: for every entry whose path does not end with a separator,
whose final segment is not the suppression-list file name, and whose
segment list has fewer than three entries after the optional base-prefix
strip, the classifier raises IndexError (`none`) instead of returning a
routing outcome. -/
theorem C9_short_path_raises (tof : List String → Option String)
    (dof : List String → String → String) (e : Entry) (base : String)
    (liste : List String) (unknown : List (String × Nat)) (pl : Bool)
    (h2 : pyEndsWithSlash e.pathname = false)
    (h3 : (pySplitSlash e.pathname).getLastD ""
      ≠ "liste_suppression_" ++ pyLower base ++ ".dat")
    (h5 : (effParts e.pathname base).length < 3) :
    get_process_xml_job_args_for_entry tof dof e base liste unknown pl = none := by
  by_cases h1 : e.pathname = ""
  · simp [get_process_xml_job_args_for_entry, h1]
  · simp only [get_process_xml_job_args_for_entry]
    rw [if_neg h1, if_neg (by simp [h2]), if_neg h3]
    split
    · rfl
    · simp only [classifyTail]
      rw [if_pos h5]

/-- Witness for C9: the two-segment path `foo/bar` (not a directory, not the
suppression list) makes the classifier raise. -/
theorem C9_short_path_raises_witness :
    get_process_xml_job_args_for_entry (fun _ => none) (fun _ _ => "")
      ⟨"foo/bar", "", 0⟩ "LEGI" [] [] true = none :=
  C9_short_path_raises (fun _ => none) (fun _ _ => "") ⟨"foo/bar", "", 0⟩ "LEGI" [] [] true
    (by decide) (by decide) (by decide)

/-- Claim C6 (amended): for every non-directory, non-suppression-list entry
whose (possibly base-stripped) segment list has at least three segments and
fails the classification checks, the classifier produces no job and
increments the unknown-folder tally by one under the name of the third path
segment — regardless of whether the failed check was on the top-level
segment or on the category segment. -/
theorem C6_amended_unknown_tally (tof : List String → Option String)
    (dof : List String → String → String) (e : Entry) (base : String)
    (liste : List String) (unknown : List (String × Nat)) (pl : Bool)
    (h1 : e.pathname ≠ "")
    (h2 : pyEndsWithSlash e.pathname = false)
    (h3 : (pySplitSlash e.pathname).getLastD ""
      ≠ "liste_suppression_" ++ pyLower base ++ ".dat")
    (h4 : 2 ≤ (pySplitSlash e.pathname).length)
    (h5 : 3 ≤ (effParts e.pathname base).length)
    (h6 : familyBad (effParts e.pathname base) = true) :
    get_process_xml_job_args_for_entry tof dof e base liste unknown pl
      = some (none, liste, incKey unknown ((effParts e.pathname base).getD 2 "") 1) := by
  simp only [get_process_xml_job_args_for_entry, classifyTail]
  rw [if_neg h1, if_neg (by simp [h2]), if_neg h3, if_neg (by omega), if_neg (by omega),
    if_pos h6]

/-- Witness for C6 (amended): an entry under the unrecognized top-level
folder `foo` is tallied under its third segment `baz`. -/
theorem C6_amended_unknown_tally_witness :
    get_process_xml_job_args_for_entry (fun _ => none) (fun _ _ => "")
      ⟨"foo/bar/baz/doc.xml", "", 0⟩ "LEGI" [] [] true
      = some (none, [], [("baz", 1)]) := by
  have h := C6_amended_unknown_tally (fun _ => none) (fun _ _ => "")
    ⟨"foo/bar/baz/doc.xml", "", 0⟩ "LEGI" [] [] true (by decide) (by decide) (by decide)
    (by decide) (by decide) (by decide)
  simpa using h

/-- Claim C7 (amended): for every entry whose path passes the family and
category checks but for which the external table mapping returns no match,
the classifier produces no job descriptor and tallies under the text
identifier (the final segment with its last four characters stripped) —
provided the container-id read succeeds, i.e. the base is not `LEGI` or the
segment list has at least twelve segments; otherwise `parts[11]` raises
IndexError before the table test is reached. -/
theorem C7_amended_text_id_tally (tof : List String → Option String)
    (dof : List String → String → String) (e : Entry) (base : String)
    (liste : List String) (unknown : List (String × Nat)) (pl : Bool)
    (h1 : e.pathname ≠ "")
    (h2 : pyEndsWithSlash e.pathname = false)
    (h3 : (pySplitSlash e.pathname).getLastD ""
      ≠ "liste_suppression_" ++ pyLower base ++ ".dat")
    (h4 : 2 ≤ (pySplitSlash e.pathname).length)
    (h5 : 3 ≤ (effParts e.pathname base).length)
    (h6 : familyBad (effParts e.pathname base) = false)
    (h7 : base = "LEGI" → 12 ≤ (effParts e.pathname base).length)
    (h8 : tof (effParts e.pathname base) = none) :
    get_process_xml_job_args_for_entry tof dof e base liste unknown pl
      = some (none, liste,
          incKey unknown (pyStripLast4 ((effParts e.pathname base).getLastD "")) 1) := by
  have hcid : ¬((base = "LEGI" && decide ((effParts e.pathname base).length < 12)) = true) := by
    simp only [Bool.and_eq_true, decide_eq_true_eq, not_and]
    intro hb hlt
    exact absurd (h7 hb) (by omega)
  simp only [get_process_xml_job_args_for_entry, classifyTail]
  rw [if_neg h1, if_neg (by simp [h2]), if_neg h3, if_neg (by omega), if_neg (by omega),
    if_neg (by simp [h6]), if_neg hcid, h8]

/-- Witness for C7 (amended): a valid-family `jorf` path whose table lookup
fails is tallied under its text identifier `ABC1234`, not its folder. -/
theorem C7_amended_text_id_tally_witness :
    get_process_xml_job_args_for_entry (fun _ => none) (fun _ _ => "")
      ⟨"jorf/x/texte/ABC1234.xml", "", 0⟩ "JORF" [] [] true
      = some (none, [], [("ABC1234", 1)]) := by
  have h := C7_amended_text_id_tally (fun _ => none) (fun _ _ => "")
    ⟨"jorf/x/texte/ABC1234.xml", "", 0⟩ "JORF" [] [] true (by decide) (by decide) (by decide)
    (by decide) (by decide) (by decide) (by decide) (by decide)
  simpa using h

/-- Dropping the head of a list with at least two elements leaves the last
element unchanged. -/
theorem drop_one_getLastD {α : Type} (l : List α) (d : α) (h : 2 ≤ l.length) :
    (l.drop 1).getLastD d = l.getLastD d := by
  match l, h with
  | a :: b :: t, _ => simp [List.getLastD_eq_getLast?, List.getLast?_cons_cons]

/-- Indexing position 1 after dropping the head is indexing position 2. -/
theorem drop_one_getD {α : Type} (l : List α) (d : α) :
    (l.drop 1).getD 1 d = l.getD 2 d := by
  cases l with
  | nil => rfl
  | cons a t => rfl

/-- On fewer than three segments `classifyTail` raises (the `parts[2]`
IndexError). -/
theorem classifyTail_short (tof : List String → Option String)
    (dof : List String → String → String) (ps : List String) (payload : String)
    (mtime : Int) (base : String) (liste : List String) (unknown : List (String × Nat))
    (pl : Bool) (h : ps.length < 3) :
    classifyTail tof dof ps payload mtime base liste unknown pl = none := by
  simp only [classifyTail]
  rw [if_pos h]

/-- Claim C10 (amended): when an entry's second path segment equals the
lower-cased base, the classifier discards the first segment and routes the
entry exactly as the entry whose path is the remainder after the first
segment (same payload and modification time) — provided the original path's
third segment does not itself equal the lower-cased base, for otherwise the
strip applies to the remainder a second time and the routing may differ.
For paths whose second segment differs from the lower-cased base the
segments are used unshifted. -/
theorem C10_amended_base_strip :
    (∀ (tof : List String → Option String) (dof : List String → String → String)
      (e e2 : Entry) (base : String) (liste : List String)
      (unknown : List (String × Nat)) (pl : Bool),
      e2.payload = e.payload → e2.mtime = e.mtime →
      pySplitSlash e2.pathname = (pySplitSlash e.pathname).drop 1 →
      e.pathname ≠ "" → pyEndsWithSlash e.pathname = false →
      (pySplitSlash e.pathname).getLastD ""
        ≠ "liste_suppression_" ++ pyLower base ++ ".dat" →
      2 ≤ (pySplitSlash e.pathname).length →
      (pySplitSlash e.pathname).getD 1 "" = pyLower base →
      (pySplitSlash e.pathname).getD 2 "" ≠ pyLower base →
      e2.pathname ≠ "" → pyEndsWithSlash e2.pathname = false →
      get_process_xml_job_args_for_entry tof dof e base liste unknown pl
        = get_process_xml_job_args_for_entry tof dof e2 base liste unknown pl) ∧
    (∀ (path base : String),
      (pySplitSlash path).getD 1 "" ≠ pyLower base →
      effParts path base = pySplitSlash path) := by
  constructor
  · intro tof dof e e2 base liste unknown pl hpay hmt hsplit h1 h2 h3 h4 hstrip hnodup h1b h2b
    have hL : effParts e.pathname base = (pySplitSlash e.pathname).drop 1 := by
      simp only [effParts]
      rw [if_pos hstrip]
    have hsupp2 : (pySplitSlash e2.pathname).getLastD ""
        ≠ "liste_suppression_" ++ pyLower base ++ ".dat" := by
      rw [hsplit, drop_one_getLastD _ _ h4]
      exact h3
    have lhs_eq : get_process_xml_job_args_for_entry tof dof e base liste unknown pl
        = classifyTail tof dof ((pySplitSlash e.pathname).drop 1) e.payload e.mtime base
            liste unknown pl := by
      simp only [get_process_xml_job_args_for_entry]
      rw [if_neg h1, if_neg (by simp [h2]), if_neg h3, if_neg (by omega), hL]
    rcases Nat.lt_or_ge (pySplitSlash e.pathname).length 3 with hlen | hlen
    · have rhs_none : get_process_xml_job_args_for_entry tof dof e2 base liste unknown pl
          = none := by
        simp only [get_process_xml_job_args_for_entry]
        rw [if_neg h1b, if_neg (by simp [h2b]), if_neg hsupp2,
          if_pos (by rw [hsplit]; simp [List.length_drop]; omega)]
      rw [lhs_eq, rhs_none]
      exact classifyTail_short tof dof _ _ _ _ _ _ _ (by simp [List.length_drop]; omega)
    · have heff : effParts e2.pathname base = (pySplitSlash e.pathname).drop 1 := by
        simp only [effParts]
        rw [if_neg (by rw [hsplit, drop_one_getD]; exact hnodup), hsplit]
      have rhs_eq : get_process_xml_job_args_for_entry tof dof e2 base liste unknown pl
          = classifyTail tof dof ((pySplitSlash e.pathname).drop 1) e2.payload e2.mtime base
              liste unknown pl := by
        simp only [get_process_xml_job_args_for_entry]
        rw [if_neg h1b, if_neg (by simp [h2b]), if_neg hsupp2,
          if_neg (by rw [hsplit]; simp [List.length_drop]; omega), heff]
      rw [lhs_eq, rhs_eq, hpay, hmt]
  · intro path base h
    simp only [effParts]
    rw [if_neg h]

/-- Witness for C10 (amended): `x/legi/a/b/c.xml` with base `LEGI` is routed
exactly as the remainder path `legi/a/b/c.xml` with the same payload and
modification time. -/
theorem C10_amended_base_strip_witness :
    get_process_xml_job_args_for_entry (fun _ => none) (fun _ _ => "")
      ⟨"x/legi/a/b/c.xml", "P", 5⟩ "LEGI" [] [] true
      = get_process_xml_job_args_for_entry (fun _ => none) (fun _ _ => "")
        ⟨"legi/a/b/c.xml", "P", 5⟩ "LEGI" [] [] true :=
  C10_amended_base_strip.1 (fun _ => none) (fun _ _ => "") ⟨"x/legi/a/b/c.xml", "P", 5⟩
    ⟨"legi/a/b/c.xml", "P", 5⟩ "LEGI" [] [] true (by decide) (by decide) (by decide)
    (by decide) (by decide) (by decide) (by decide) (by decide) (by decide) (by decide)
    (by decide)

/-- With committing disabled the sequential loop only emits the process
events, in order. -/
theorem syncLoop_trace_nocommit {J : Type} (pxml : J → List (String × Nat) × Nat)
    (jobs : List J) : ∀ st, (syncLoop pxml false jobs st).2 = jobs.map DBEvent.processJob := by
  induction jobs with
  | nil => intro st; rfl
  | cons j r ih => intro st; simp [syncLoop, ih]

/-- With committing enabled the sequential loop emits a commit right after
each job. -/
theorem syncLoop_trace_commit {J : Type} (pxml : J → List (String × Nat) × Nat)
    (jobs : List J) : ∀ st, (syncLoop pxml true jobs st).2 = perJobCommitTrace jobs := by
  induction jobs with
  | nil => intro st; rfl
  | cons j r ih => intro st; simp [syncLoop, perJobCommitTrace, ih]

/-- Process events are not commits. -/
theorem countP_isCommit_map {J : Type} (jobs : List J) :
    (jobs.map DBEvent.processJob).countP DBEvent.isCommit = 0 := by
  induction jobs with
  | nil => rfl
  | cons j r ih => simp [List.countP_cons, ih, DBEvent.isCommit]

/-- The per-job commit trace holds one commit per job. -/
theorem countP_perJobCommitTrace {J : Type} (jobs : List J) :
    (perJobCommitTrace jobs).countP DBEvent.isCommit = jobs.length := by
  induction jobs with
  | nil => rfl
  | cons j r ih => simp [perJobCommitTrace, List.countP_cons, ih, DBEvent.isCommit]

/-- Claim C8: a worker's batch run opens its own store connection and
performs exactly one commit for the entire batch, after the last job — the
delegated per-job loop runs with committing disabled — whereas the
sequential path with `commit=True` commits once after each job. -/
theorem C8_batch_commit_discipline {J : Type} (pxml : J → List (String × Nat) × Nat)
    (jobs : List J) :
    (process_xml_jobs_batch pxml jobs).2
      = DBEvent.connect :: (jobs.map DBEvent.processJob ++ [DBEvent.commit]) ∧
    ((process_xml_jobs_batch pxml jobs).2).countP DBEvent.isCommit = 1 ∧
    (process_xml_jobs_sync pxml jobs true).2 = perJobCommitTrace jobs ∧
    ((process_xml_jobs_sync pxml jobs true).2).countP DBEvent.isCommit = jobs.length := by
  have h1 : (process_xml_jobs_batch pxml jobs).2
      = DBEvent.connect :: (jobs.map DBEvent.processJob ++ [DBEvent.commit]) := by
    simp only [process_xml_jobs_batch, process_xml_jobs_sync]
    rw [syncLoop_trace_nocommit]
  refine ⟨h1, ?_, ?_, ?_⟩
  · rw [h1]
    simp [List.countP_cons, List.countP_append, countP_isCommit_map, DBEvent.isCommit]
  · simp only [process_xml_jobs_sync]
    rw [syncLoop_trace_commit]
  · simp only [process_xml_jobs_sync]
    rw [syncLoop_trace_commit, countP_perJobCommitTrace]

/-- The chunk loop emits only chunk-completion events, never a suppress
invocation. -/
theorem runChunks_trace_no_suppress (tof : List String → Option String)
    (dof : List String → String → String) (pxml : JobArgs → List (String × Nat) × Nat)
    (entries : List Entry) (base : String) (maxProcesses : Option Int)
    (process_links : Bool) :
    ∀ (cs : List (Nat × Nat)) (st : RunState),
      ((runChunks tof dof pxml entries base maxProcesses process_links cs st).2).countP
        RunEvent.isSuppress = 0 := by
  intro cs
  induction cs with
  | nil => intro st; rfl
  | cons c cs ih =>
    intro st
    simp only [runChunks]
    cases process_chunk tof dof pxml entries base maxProcesses process_links c st with
    | none => rfl
    | some st2 => simp [List.countP_cons, ih, RunEvent.isSuppress]

/-- One classifier call only ever appends to the suppression list. -/
theorem get_args_liste_mono (tof : List String → Option String)
    (dof : List String → String → String) (e : Entry) (base : String)
    (l : List String) (u : List (String × Nat)) (pl : Bool)
    (r : Option JobArgs × List String × List (String × Nat))
    (h : get_process_xml_job_args_for_entry tof dof e base l u pl = some r) :
    l <+: r.2.1 := by
  simp only [get_process_xml_job_args_for_entry, classifyTail] at h
  by_cases h0 : e.pathname = ""
  · rw [if_pos h0] at h
    exact Option.noConfusion h
  rw [if_neg h0] at h
  by_cases h1 : pyEndsWithSlash e.pathname = true
  · rw [if_pos h1] at h
    cases h
    exact List.prefix_rfl
  rw [if_neg h1] at h
  by_cases h2 : (pySplitSlash e.pathname).getLastD ""
      = "liste_suppression_" ++ pyLower base ++ ".dat"
  · rw [if_pos h2] at h
    cases h
    exact List.prefix_append _ _
  rw [if_neg h2] at h
  by_cases h3 : (pySplitSlash e.pathname).length < 2
  · rw [if_pos h3] at h
    exact Option.noConfusion h
  rw [if_neg h3] at h
  by_cases h4 : (effParts e.pathname base).length < 3
  · rw [if_pos h4] at h
    exact Option.noConfusion h
  rw [if_neg h4] at h
  by_cases h5 : familyBad (effParts e.pathname base) = true
  · rw [if_pos h5] at h
    cases h
    exact List.prefix_rfl
  rw [if_neg h5] at h
  by_cases h6 : (base = "LEGI" && decide ((effParts e.pathname base).length < 12)) = true
  · rw [if_pos h6] at h
    exact Option.noConfusion h
  rw [if_neg h6] at h
  cases ht : tof (effParts e.pathname base) with
  | none =>
    rw [ht] at h
    cases h
    exact List.prefix_rfl
  | some t =>
    rw [ht] at h
    cases h
    exact List.prefix_rfl

/-- Classifying a chunk's entries only ever appends to the suppression
list. -/
theorem classifyEntries_liste_mono (tof : List String → Option String)
    (dof : List String → String → String) (base : String) (pl : Bool) :
    ∀ (es : List Entry) (l : List String) (u : List (String × Nat))
      (r : List (Option JobArgs) × List String × List (String × Nat)),
      classifyEntries tof dof base pl es l u = some r → l <+: r.2.1 := by
  intro es
  induction es with
  | nil =>
    intro l u r h
    simp only [classifyEntries] at h
    cases h
    exact List.prefix_rfl
  | cons e es ih =>
    intro l u r h
    simp only [classifyEntries] at h
    cases hg : get_process_xml_job_args_for_entry tof dof e base l u pl with
    | none => rw [hg] at h; exact Option.noConfusion h
    | some t =>
      obtain ⟨j, l2, u2⟩ := t
      rw [hg] at h
      dsimp only at h
      cases hc : classifyEntries tof dof base pl es l2 u2 with
      | none => rw [hc] at h; exact Option.noConfusion h
      | some r2 =>
        obtain ⟨js, l3, u3⟩ := r2
        rw [hc] at h
        dsimp only at h
        cases h
        exact (get_args_liste_mono tof dof e base l u pl _ hg).trans
          (ih l2 u2 (js, l3, u3) hc)

/-- Processing one chunk only ever appends to the suppression list. -/
theorem process_chunk_liste_mono (tof : List String → Option String)
    (dof : List String → String → String) (pxml : JobArgs → List (String × Nat) × Nat)
    (entries : List Entry) (base : String) (maxProcesses : Option Int)
    (process_links : Bool) (c : Nat × Nat) (st st2 : RunState)
    (h : process_chunk tof dof pxml entries base maxProcesses process_links c st = some st2) :
    st.liste_suppression <+: st2.liste_suppression := by
  simp only [process_chunk] at h
  cases hc : classifyEntries tof dof base process_links
      (iterate_archive_chunk_entries entries c.1 c.2) st.liste_suppression
      st.unknown_folders with
  | none => rw [hc] at h; exact Option.noConfusion h
  | some r =>
    rw [hc] at h
    obtain ⟨js, l2, u2⟩ := r
    cases h
    exact classifyEntries_liste_mono tof dof base process_links _ _ _ _ hc

/-- Across the whole chunk loop the suppression list only grows: the list at
the start of the loop is a prefix of the list in the final state. -/
theorem runChunks_liste_mono (tof : List String → Option String)
    (dof : List String → String → String) (pxml : JobArgs → List (String × Nat) × Nat)
    (entries : List Entry) (base : String) (maxProcesses : Option Int)
    (process_links : Bool) :
    ∀ (cs : List (Nat × Nat)) (st st2 : RunState),
      (runChunks tof dof pxml entries base maxProcesses process_links cs st).1 = some st2 →
      st.liste_suppression <+: st2.liste_suppression := by
  intro cs
  induction cs with
  | nil =>
    intro st st2 h
    simp only [runChunks] at h
    cases h
    exact List.prefix_rfl
  | cons c cs ih =>
    intro st st2 h
    simp only [runChunks] at h
    cases hc : process_chunk tof dof pxml entries base maxProcesses process_links c st with
    | none => rw [hc] at h; exact Option.noConfusion h
    | some stm =>
      rw [hc] at h
      exact (process_chunk_liste_mono tof dof pxml entries base maxProcesses process_links
        c st stm hc).trans (ih stm st2 h)

/-- Claim C4: in every run of `process_archive` the trace is a list of
chunk-completion events followed by at most one `suppress` invocation: the
suppression applier is called only after the loop over all chunks has
completed, at most once per run, and — when it is called — with the
suppression list accumulated over every chunk, i.e. the final state's
`liste_suppression`.  The second conjunct states the accumulation: across
any run of the chunk loop the suppression list only grows by appending, so
identifiers collected by earlier chunks are still present in the final
list handed to `suppress`, and identifiers found in later chunks have been
added to it by then. -/
theorem C4_suppress_once_after_chunks (tof : List String → Option String)
    (dof : List String → String → String) (pxml : JobArgs → List (String × Nat) × Nat)
    (chunkSize : Nat) (entries : List Entry) (base : String) (maxProcesses : Option Int)
    (process_links : Bool) :
    (∃ pre : List RunEvent,
      pre.countP RunEvent.isSuppress = 0 ∧
      ((process_archive tof dof pxml chunkSize entries base maxProcesses process_links).2
          = pre ∨
       ∃ st : RunState,
         (process_archive tof dof pxml chunkSize entries base maxProcesses process_links).1
           = some st ∧
         st.liste_suppression.isEmpty = false ∧
         (process_archive tof dof pxml chunkSize entries base maxProcesses process_links).2
           = pre ++ [RunEvent.suppressCall base st.liste_suppression])) ∧
    (∀ (cs : List (Nat × Nat)) (st : RunState),
      ((runChunks tof dof pxml entries base maxProcesses process_links cs st).1).elim True
        (fun st2 => st.liste_suppression <+: st2.liste_suppression)) := by
  refine ⟨?_, ?_⟩
  case refine_2 =>
    intro cs st
    cases hrc : (runChunks tof dof pxml entries base maxProcesses process_links cs st).1 with
    | none => exact trivial
    | some st2 =>
      exact runChunks_liste_mono tof dof pxml entries base maxProcesses process_links
        cs st st2 hrc
  cases hb : build_chunks entries.length chunkSize with
  | none =>
    refine ⟨[], rfl, Or.inl ?_⟩
    simp [process_archive, hb]
  | some chunks =>
    have hns := runChunks_trace_no_suppress tof dof pxml entries base maxProcesses
      process_links chunks ⟨[], 0, [], []⟩
    cases hr : runChunks tof dof pxml entries base maxProcesses process_links chunks
        ⟨[], 0, [], []⟩ with
    | mk res evs =>
      rw [hr] at hns
      cases res with
      | none =>
        refine ⟨evs, hns, Or.inl ?_⟩
        simp [process_archive, hb, hr]
      | some st =>
        by_cases he : st.liste_suppression = []
        · refine ⟨evs, hns, Or.inl ?_⟩
          simp [process_archive, hb, hr, he]
        · refine ⟨evs, hns, Or.inr ⟨st, ?_, ?_, ?_⟩⟩
          · simp [process_archive, hb, hr, he]
          · cases hl : st.liste_suppression with
            | nil => exact absurd hl he
            | cons a t => rfl
          · simp [process_archive, hb, hr, he]
